import Mathlib

/-!
Shallow embedding of `gather_works.py` and of the ISSN deduplication step of
`old/match_issns.py` from the openalex-bibliometrics-research repository.

Python strings are modelled as lists of characters (`Str`); dictionary
lookups of possibly-missing keys are modelled with `Option`; exceptions that
the Python code raises are modelled with `Except PyErr`.  The set of matched
source identifiers is a `Finset Int`, mirroring the Python `Set[int]`.
-/

/-- Python strings, modelled as lists of characters. -/
abbrev Str := List Char

/-- Exceptions the embedded Python code can raise. -/
inductive PyErr where
  | keyError
  | attributeError
  | valueError
deriving DecidableEq

deriving instance DecidableEq for Except

/-- Characters removed by Python `str.strip()`. -/
def isPySpace (c : Char) : Bool :=
  c == ' ' || c == '\t' || c == '\n' || c == '\r' || c == '\x0b' || c == '\x0c'

/-- Python `str.strip()`: drop whitespace from both ends. -/
def pyStrip (s : Str) : Str :=
  ((s.dropWhile isPySpace).reverse.dropWhile isPySpace).reverse

/-- Python `str.lower()` (ASCII case folding). -/
def pyLower (s : Str) : Str := s.map Char.toLower

/-- Numeric value of a string of decimal digits. -/
def digitsVal (ds : Str) : Nat :=
  ds.foldl (fun acc c => acc * 10 + (c.toNat - 48)) 0

/-- Split an optional leading sign off a stripped string (part of `int()`). -/
def pyIntSign (t : Str) : Int × Str :=
  if t.head? = some '+' then (1, t.tail)
  else if t.head? = some '-' then (-1, t.tail)
  else (1, t)

/-- Python `int(s)` on a string: strip whitespace, optional sign, then decimal
digits; `none` models a raised `ValueError`. -/
def pyInt (s : Str) : Option Int :=
  if (pyIntSign (pyStrip s)).2 ≠ [] ∧ (pyIntSign (pyStrip s)).2.all Char.isDigit then
    some ((pyIntSign (pyStrip s)).1 * (digitsVal (pyIntSign (pyStrip s)).2 : Int))
  else none

/-- Python `needle in hay`: contiguous substring containment. -/
def containsSub (needle : Str) : Str → Bool
  | [] => needle.isEmpty
  | c :: rest => needle.isPrefixOf (c :: rest) || containsSub needle rest

/-- Scanner for `replaceDrop`: while `skip` is positive the current character
belongs to an occurrence already matched and is discarded without scanning. -/
def replaceDropGo (needle : Str) : Nat → Str → Str
  | _, [] => []
  | k + 1, _ :: rest => replaceDropGo needle k rest
  | 0, c :: rest =>
    if needle ≠ [] ∧ needle.isPrefixOf (c :: rest) then
      replaceDropGo needle (needle.length - 1) rest
    else
      c :: replaceDropGo needle 0 rest

/-- Python `hay.replace(needle, "")` for a non-empty needle: remove every
non-overlapping occurrence, scanning left to right. -/
def replaceDrop (needle s : Str) : Str := replaceDropGo needle 0 s

/-- The work-identifier namespace string of `gather_works.get_row`. -/
def workPrefixChars : Str := "https://openalex.org/w".data

/-- The source-identifier namespace string of `gather_works.get_row`. -/
def sourcePrefixChars : Str := "https://openalex.org/s".data

/-- Lines 64-74 of `gather_works.py`: resolve the work's own identifier.
`work.get("id")` is `none` when the key is absent.  On every malformed
identifier the code reaches `logger.error(f"invalid work id: {work['id']. Skipping}")`,
whose format expression `work['id']. Skipping` raises before the message is
emitted: `KeyError` when the key is absent, otherwise `AttributeError`
(strings have no attribute `Skipping`); the `return None` after it is dead. -/
def parseWorkId : Option Str → Except PyErr Int
  | none => .error .keyError
  | some s =>
    if s = [] then .error .attributeError
    else if containsSub workPrefixChars (pyLower s) = false then .error .attributeError
    else
      match pyInt (replaceDrop workPrefixChars (pyLower s)) with
      | some n => .ok n
      | none => .error .attributeError

/-- A `source` sub-object of a location (or of `primary_location`). -/
structure Source where
  id : Option Str := none
  type : Option Str := none
  publisher : Option Str := none
deriving DecidableEq

/-- One element of a work's `locations` list. -/
structure Location where
  source : Option Source := none
deriving DecidableEq

/-- One element of a work's `authorships` list. -/
structure Authorship where
  countries : Option (List Str) := none
deriving DecidableEq

/-- The `open_access` sub-object of a work. -/
structure OpenAccess where
  is_oa : Option Bool := none
  oa_status : Option Str := none
deriving DecidableEq

/-- A work record, as consumed by `get_row`; every field the script reads. -/
structure Work where
  id : Option Str := none
  primary_location : Option Location := none
  authorships : Option (List Authorship) := none
  locations : Option (List Location) := none
  publication_year : Option Int := none
  language : Option Str := none
  type : Option Str := none
  type_crossref : Option Str := none
  referenced_works_count : Option Int := none
  authors_count : Option Int := none
  cited_by_count : Option Int := none
  institutions_distinct_count : Option Int := none
  open_access : Option OpenAccess := none
  is_retracted : Option Bool := none
  doi : Option Str := none
deriving DecidableEq

/-- `gather_works.get_source_type` (lines 30-36). -/
def getSourceType (work : Work) : Option Str :=
  match work.primary_location with
  | none => none
  | some pl =>
    match pl.source with
    | none => none
    | some src => src.type

/-- `gather_works.get_publisher` (lines 39-45). -/
def getPublisher (work : Work) : Option Str :=
  match work.primary_location with
  | none => none
  | some pl =>
    match pl.source with
    | none => none
    | some src => src.publisher

/-- The accumulation loop of `gather_works.get_countries` (lines 52-56). -/
def collectCountries (authorships : List Authorship) : List Str :=
  authorships.foldl (fun acc a =>
    match a.countries with
    | none => acc
    | some cs => if cs = [] then acc else acc ++ cs) []

/-- `gather_works.get_countries` (lines 48-60).  Python returns
`list(set(countries))`, an order-irrelevant deduplication, modelled with
`List.dedup`. -/
def getCountries (work : Work) : Option (List Str) :=
  match work.authorships with
  | none => none
  | some as =>
    if as = [] then none
    else
      let countries := collectCountries as
      if countries = [] then none else some countries.dedup

/-- Lines 82-97 of `gather_works.py`: extract and parse one location's source
identifier.  `none` covers every skipped case: missing/falsy `source`,
missing/falsy `id`, identifier without the source namespace string, and
non-integer remainder (the last two are logged with well-formed messages and
the loop continues). -/
def collectSourceId (loc : Location) : Option Int :=
  match loc.source with
  | none => none
  | some src =>
    match src.id with
    | none => none
    | some sid =>
      if sid = [] then none
      else if containsSub sourcePrefixChars (pyLower sid) = false then none
      else pyInt (replaceDrop sourcePrefixChars (pyLower sid))

/-- The per-location collection loop of `get_row` (lines 80-98). -/
def collectSourceIds (locs : List Location) : List Int :=
  locs.filterMap collectSourceId

/-- Lines 76-102 of `gather_works.py`: the `in_match_set` flag.  It stays
`None` only when `locations` is absent or an empty list; otherwise it is
`True` exactly when the collected source ids intersect the matched set. -/
def computeInMatchSet (locations : Option (List Location)) (source_ids_matched : Finset Int) :
    Option Bool :=
  match locations with
  | none => none
  | some locs =>
    if locs = [] then none
    else some (decide (((collectSourceIds locs).toFinset ∩ source_ids_matched).Nonempty))

/-- The flattened row built at lines 103-121 of `gather_works.py`. -/
structure Row where
  work_id : Int
  in_match_set : Option Bool
  publication_year : Option Int
  language : Option Str
  publisher : Option Str
  type : Option Str
  type_crossref : Option Str
  countries : Option (List Str)
  referenced_works_count : Option Int
  authors_count : Option Int
  cited_by_count : Option Int
  institutions_distinct_count : Option Int
  is_oa : Option Bool
  oa_status : Option Str
  is_retracted : Option Bool
  source_type : Option Str
  has_doi : Bool
deriving DecidableEq

/-- `gather_works.get_row` (lines 63-122).  A raised exception is `.error`;
a successful flattening is `.ok (some row)`.  The function can never return
`.ok none`: both `return None` statements of the source are preceded by a
log call whose format string raises first. -/
def getRow (work : Work) (source_ids_matched : Finset Int) : Except PyErr (Option Row) :=
  match parseWorkId work.id with
  | .error e => .error e
  | .ok work_id =>
    .ok (some
      { work_id := work_id
        in_match_set := computeInMatchSet work.locations source_ids_matched
        publication_year := work.publication_year
        language := work.language
        publisher := getPublisher work
        type := work.type
        type_crossref := work.type_crossref
        countries := getCountries work
        referenced_works_count := work.referenced_works_count
        authors_count := work.authors_count
        cited_by_count := work.cited_by_count
        institutions_distinct_count := work.institutions_distinct_count
        is_oa := work.open_access.bind OpenAccess.is_oa
        oa_status := work.open_access.bind OpenAccess.oa_status
        is_retracted := work.is_retracted
        source_type := getSourceType work
        has_doi := work.doi.isSome })

/-- Python `txt.split("\n")`: split on newline, keeping empty items, so the
result always has one more item than there are newline characters. -/
def pySplitNl : Str → List Str
  | [] => [[]]
  | c :: rest =>
    if c = '\n' then [] :: pySplitNl rest
    else
      match pySplitNl rest with
      | [] => [[c]]
      | g :: gs => (c :: g) :: gs

/-- Python `item.replace("S", "")`: remove every capital `S`. -/
def removeS (s : Str) : Str := s.filter (fun c => c ≠ 'S')

/-- `gather_works.get_source_ids_matched` (lines 172-179): split the file text
on newlines, strip each item, remove the `S` letters, convert to `int`
(an unparsable item raises `ValueError`, modelled by `.error`), and collect
the integers into a set. -/
def getSourceIdsMatched (txt : Str) : Except PyErr (Finset Int) :=
  match (pySplitNl txt).mapM (fun item => pyInt (removeS (pyStrip item))) with
  | none => .error .valueError
  | some ids => .ok ids.toFinset

/-- Join lines with newline characters: the text of a file whose lines are
`lines`, with no terminating newline. -/
def joinNl : List Str → Str
  | [] => []
  | [l] => l
  | l :: ls => l ++ '\n' :: joinNl ls

/-- The probe loop at lines 200-206 of `gather_works.py`: starting from
`idx`, increment until an index whose output file name is not present in the
output directory is found.  The directory is modelled as the finite set of
indices `i` for which `works_{i:04}.parquet` exists (the zero-padded name is
injective in the index, so index sets and name sets are interchangeable). -/
def findFree (files : Finset Nat) (idx : Nat) : Nat :=
  if idx ∈ files then findFree files (idx + 1) else idx
termination_by (files.filter (fun n => idx ≤ n)).card
decreasing_by
  apply Finset.card_lt_card
  constructor
  · intro n hn
    simp only [Finset.mem_filter] at hn ⊢
    exact ⟨hn.1, by omega⟩
  · intro hsub
    have h0 : idx ∈ Finset.filter (fun n => idx ≤ n) files := by
      simp only [Finset.mem_filter]
      exact ⟨by assumption, le_refl idx⟩
    have h1 := hsub h0
    simp only [Finset.mem_filter] at h1
    omega

/-- The batch-writing loop of `gather_works.main` (lines 196-208), abstracted
over `n` produced batches: for each batch, probe for a free index starting at
the current `fileIdx`, write there (the index joins the directory), and keep
the found index as the next probe's start.  Returns the final directory
contents and the list of indices written to, in order. -/
def writeLoop (files : Finset Nat) (fileIdx : Nat) : Nat → Finset Nat × List Nat
  | 0 => (files, [])
  | n + 1 =>
    let i := findFree files fileIdx
    let rest := writeLoop (insert i files) i n
    (rest.1, i :: rest.2)

/-- One melted Scopus row of `old/match_issns.py`: the internal Scopus source
identifier and the normalized ISSN string (column `value`). -/
structure IssnRow where
  scopus_id : Int
  value : Str
deriving DecidableEq

/-- `df.sort_values('scopus_id', ascending=False)` on the melted rows:
sort descending by `scopus_id` (the pandas kind is unspecified quicksort, so
only sortedness and permutation are relied on). -/
def sortByScopusIdDesc (rows : List IssnRow) : List IssnRow :=
  rows.insertionSort (fun a b => b.scopus_id ≤ a.scopus_id)

/-- `drop_duplicates(subset=['value'])`: keep the first row carrying each
`value`, dropping later ones.  `seen` is the set of values already kept. -/
def dropDupValues (seen : List Str) : List IssnRow → List IssnRow
  | [] => []
  | r :: rs =>
    if r.value ∈ seen then dropDupValues seen rs
    else r :: dropDupValues (r.value :: seen) rs

/-- Lines 56-57 of `old/match_issns.py`: sort the melted ISSN rows descending
by `scopus_id`, then drop duplicate ISSN values keeping the first. -/
def dedupIssns (rows : List IssnRow) : List IssnRow :=
  dropDupValues [] (sortByScopusIdDesc rows)

/-! ## Helper lemmas -/

/-- When the work identifier parses, `get_row` returns the flattened row. -/
theorem getRow_ok_of_parse (w : Work) (m : Finset Int) (wid : Int)
    (hid : parseWorkId w.id = .ok wid) :
    getRow w m = .ok (some
      { work_id := wid
        in_match_set := computeInMatchSet w.locations m
        publication_year := w.publication_year
        language := w.language
        publisher := getPublisher w
        type := w.type
        type_crossref := w.type_crossref
        countries := getCountries w
        referenced_works_count := w.referenced_works_count
        authors_count := w.authors_count
        cited_by_count := w.cited_by_count
        institutions_distinct_count := w.institutions_distinct_count
        is_oa := w.open_access.bind OpenAccess.is_oa
        oa_status := w.open_access.bind OpenAccess.oa_status
        is_retracted := w.is_retracted
        source_type := getSourceType w
        has_doi := w.doi.isSome }) := by
  unfold getRow
  rw [hid]

/-! ## C1 -/

/-- C1: the claim that `get_row` reports a malformed or missing work
identifier via the log and returns no value without raising is false on the
code: the log call `logger.error(f"invalid work id: {work['id']. Skipping}")`
evaluates the attribute access `work['id'].Skipping` and raises before either
`return None` can run — `KeyError` when the `id` key is missing,
`AttributeError` when the prefix is absent or the remainder is not an
integer.  The spec is clearly the intent (log, skip, continue), so this is a
bug in the code, witnessed here on all three malformed shapes. -/
theorem get_row_raises_on_malformed_work_id :
    getRow { id := none } ∅ = .error PyErr.keyError ∧
    getRow { id := some ("foo".data) } ∅ = .error PyErr.attributeError ∧
    getRow { id := some ("https://openalex.org/wbad".data) } ∅ = .error PyErr.attributeError :=
  ⟨by decide, by decide, by decide⟩

/-! ## C3 -/

/-- C3: for every work with a valid identifier whose `locations` field is
absent or an empty list, `get_row` produces a row whose match flag is
`None` — never true and never false. -/
theorem get_row_empty_locations_flag_unknown (w : Work) (m : Finset Int) (wid : Int)
    (hid : parseWorkId w.id = .ok wid)
    (hl : w.locations = none ∨ w.locations = some []) :
    ∃ r : Row, getRow w m = .ok (some r) ∧ r.in_match_set = none := by
  refine ⟨_, getRow_ok_of_parse w m wid hid, ?_⟩
  rcases hl with h | h <;> simp [computeInMatchSet, h]

/-- Witness for C3 at a concrete work with no `locations` key. -/
theorem get_row_empty_locations_flag_unknown_witness :
    ∃ r : Row, getRow { id := some ("https://openalex.org/w1".data) } ∅ = .ok (some r) ∧
      r.in_match_set = none :=
  get_row_empty_locations_flag_unknown _ _ 1 (by decide) (Or.inl rfl)

/-! ## C7 -/

/-- C7: country extraction deduplicates — whenever `get_countries` returns a
list, that list contains each country code at most once. -/
theorem get_countries_dedup (w : Work) (l : List Str) (h : getCountries w = some l) :
    l.Nodup := by
  unfold getCountries at h
  rcases hw : w.authorships with - | as
  · rw [hw] at h
    exact absurd h (by simp)
  · rw [hw] at h
    simp only at h
    split at h
    · exact absurd h (by simp)
    · split at h
      · exact absurd h (by simp)
      · obtain rfl := Option.some.inj h
        exact List.nodup_dedup _

/-- Witness for C7: two authorships both affiliated with country `US` yield
the one-element list `["US"]`, not `["US", "US"]`. -/
theorem get_countries_dedup_witness :
    getCountries { authorships := some [⟨some [("US".data)]⟩, ⟨some [("US".data)]⟩] }
        = some [("US".data)] ∧
      ([("US".data)] : List Str).Nodup :=
  ⟨by decide, get_countries_dedup
    { authorships := some [⟨some [("US".data)]⟩, ⟨some [("US".data)]⟩] } _ (by decide)⟩

/-! ## C10 -/

/-- Authorships none of which carries a country contribute nothing. -/
theorem collectCountries_eq_nil (as : List Authorship)
    (h : ∀ a ∈ as, a.countries.getD [] = []) :
    collectCountries as = [] := by
  have key : ∀ acc : List Str, as.foldl (fun acc a =>
      match a.countries with
      | none => acc
      | some cs => if cs = [] then acc else acc ++ cs) acc = acc := by
    induction as with
    | nil => intro acc; rfl
    | cons a rest ih =>
      intro acc
      have ha := h a (List.mem_cons_self a rest)
      have hrest : ∀ x ∈ rest, x.countries.getD [] = [] :=
        fun x hx => h x (List.mem_cons_of_mem a hx)
      rcases hc : a.countries with - | cs
      · simp only [List.foldl_cons, hc]
        exact ih hrest acc
      · rw [hc, Option.getD_some] at ha
        simp only [List.foldl_cons, hc, if_pos ha]
        exact ih hrest acc
  exact key []

/-- C10: `get_countries` never returns an empty list — a work whose
authorships yield no country at all (in particular: `authorships` absent or
empty) gets no value, and any returned list is non-empty, so a reader can
distinguish no country data from any extracted country set. -/
theorem get_countries_never_empty (w : Work) :
    ((∀ a ∈ w.authorships.getD [], a.countries.getD [] = []) → getCountries w = none) ∧
    (∀ l, getCountries w = some l → l ≠ []) := by
  constructor
  · intro h
    unfold getCountries
    rcases hw : w.authorships with - | as
    · rfl
    · rw [hw, Option.getD_some] at h
      simp only
      split
      · rfl
      · rw [collectCountries_eq_nil as h]
        simp
  · intro l hl
    unfold getCountries at hl
    rcases hw : w.authorships with - | as
    · rw [hw] at hl
      exact absurd hl (by simp)
    · rw [hw] at hl
      simp only at hl
      split at hl
      · exact absurd hl (by simp)
      · split at hl
        · exact absurd hl (by simp)
        · obtain rfl := Option.some.inj hl
          rename_i hne
          intro hdedup
          exact hne ((List.dedup_eq_nil _).mp hdedup)

/-- Witness for C10: a work with one authorship carrying an empty country
list yields no value, and the list from the C7 witness work is non-empty. -/
theorem get_countries_never_empty_witness :
    getCountries { authorships := some [⟨some []⟩] } = none ∧
      ([("US".data)] : List Str) ≠ [] :=
  ⟨(get_countries_never_empty { authorships := some [⟨some []⟩] }).1 (by decide),
   (get_countries_never_empty
      { authorships := some [⟨some [("US".data)]⟩, ⟨some [("US".data)]⟩] }).2 _ (by decide)⟩

/-! ## C2 -/

/-- The C2 counterexample work: a valid work identifier and one location
without a source, so the location loop collects zero source ids while the
`locations` list is non-empty. -/
def c2work : Work :=
  { id := some ("https://openalex.org/w1".data)
    locations := some [{ source := none }] }

/-- The row `get_row` produces for `c2work` against the matched set `{1}`. -/
def c2row : Row :=
  { work_id := 1
    in_match_set := some false
    publication_year := none
    language := none
    publisher := none
    type := none
    type_crossref := none
    countries := none
    referenced_works_count := none
    authors_count := none
    cited_by_count := none
    institutions_distinct_count := none
    is_oa := none
    oa_status := none
    is_retracted := none
    source_type := none
    has_doi := false }

/-- C2 counterexample: a work whose non-empty locations yield zero valid
source ids is classified `False`, not unknown — `if locations:` is truthy,
the collected set is empty, the intersection test fails, and the code takes
the `in_match_set = False` branch even though no source id was ever tested,
with both source sets (`set()` and `{1}`) far from both being non-empty. -/
theorem get_row_zero_ids_flag_false_counterexample :
    getRow c2work {1} = .ok (some c2row) ∧ c2row.in_match_set = some false :=
  ⟨by decide, rfl⟩

/-- The Python truthiness test `if locations:`: the `locations` field is
present and a non-empty list. -/
def hasLocations (w : Work) : Prop := ∃ locs, w.locations = some locs ∧ locs ≠ []

/-- The source ids the location loop collects for a work. -/
def workSourceIds (w : Work) : List Int := collectSourceIds (w.locations.getD [])

/-- C2 amended: the match flag of every emitted row is tri-state over the
truthiness of `locations`: unknown (no value) iff `locations` is absent or
empty; true iff the work has locations and some collected source id belongs
to the matched set; false iff the work has locations and none does —
including when zero valid source ids were collected. -/
theorem get_row_match_flag_tristate (w : Work) (m : Finset Int) (r : Row)
    (hr : getRow w m = .ok (some r)) :
    (r.in_match_set = none ↔ ¬ hasLocations w) ∧
    (r.in_match_set = some true ↔ hasLocations w ∧ ∃ i ∈ workSourceIds w, i ∈ m) ∧
    (r.in_match_set = some false ↔ hasLocations w ∧ ∀ i ∈ workSourceIds w, i ∉ m) := by
  have hflag : r.in_match_set = computeInMatchSet w.locations m := by
    rcases hp : parseWorkId w.id with e | wid
    · unfold getRow at hr
      rw [hp] at hr
      exact absurd hr (by simp)
    · have hok := getRow_ok_of_parse w m wid hp
      rw [hok] at hr
      obtain rfl := Option.some.inj (Except.ok.inj hr)
      rfl
  rcases hl : w.locations with - | locs
  · have hnl : ¬ hasLocations w := by
      rintro ⟨ls, hls, -⟩
      rw [hl] at hls
      cases hls
    rw [hflag, hl]
    exact ⟨iff_of_true rfl hnl,
      iff_of_false (by simp [computeInMatchSet]) (fun h => hnl h.1),
      iff_of_false (by simp [computeInMatchSet]) (fun h => hnl h.1)⟩
  · by_cases he : locs = []
    · subst he
      have hnl : ¬ hasLocations w := by
        rintro ⟨ls, hls, hne⟩
        rw [hl] at hls
        exact hne (Option.some.inj hls).symm
      rw [hflag, hl]
      exact ⟨iff_of_true rfl hnl,
        iff_of_false (by simp [computeInMatchSet]) (fun h => hnl h.1),
        iff_of_false (by simp [computeInMatchSet]) (fun h => hnl h.1)⟩
    · have hyl : hasLocations w := ⟨locs, hl, he⟩
      have hids : workSourceIds w = collectSourceIds locs := by
        unfold workSourceIds
        rw [hl]
        rfl
      rw [hflag, hl, hids]
      simp only [computeInMatchSet, if_neg he]
      refine ⟨⟨fun h => absurd h (by simp), fun h => absurd hyl h⟩, ?_, ?_⟩
      · rw [Option.some.injEq, decide_eq_true_eq]
        constructor
        · rintro ⟨i, hi⟩
          rw [Finset.mem_inter, List.mem_toFinset] at hi
          exact ⟨hyl, i, hi.1, hi.2⟩
        · rintro ⟨-, i, hil, him⟩
          exact ⟨i, Finset.mem_inter.mpr ⟨List.mem_toFinset.mpr hil, him⟩⟩
      · rw [Option.some.injEq, decide_eq_false_iff_not]
        constructor
        · intro hno
          refine ⟨hyl, fun i hil him => hno ⟨i, Finset.mem_inter.mpr ⟨List.mem_toFinset.mpr hil, him⟩⟩⟩
        · rintro ⟨-, hall⟩ ⟨i, hi⟩
          rw [Finset.mem_inter, List.mem_toFinset] at hi
          exact hall i hi.1 hi.2

/-- The work used to witness the amended C2 tristate theorem. -/
def c2amWork : Work :=
  { id := some ("https://openalex.org/w2".data)
    locations := some [{ source := some { id := some ("https://openalex.org/s5".data) } }] }

/-- The row `get_row` produces for `c2amWork` against the matched set `{5}`. -/
def c2amRow : Row :=
  { work_id := 2
    in_match_set := some true
    publication_year := none
    language := none
    publisher := none
    type := none
    type_crossref := none
    countries := none
    referenced_works_count := none
    authors_count := none
    cited_by_count := none
    institutions_distinct_count := none
    is_oa := none
    oa_status := none
    is_retracted := none
    source_type := none
    has_doi := false }

/-- Witness for the amended C2 theorem at a concrete matched work. -/
theorem get_row_match_flag_tristate_witness :
    c2amRow.in_match_set = some true ↔ hasLocations c2amWork ∧
      ∃ i ∈ workSourceIds c2amWork, i ∈ ({5} : Finset Int) :=
  (get_row_match_flag_tristate c2amWork {5} c2amRow (by decide)).2.1

/-! ## C5 -/

/-- C5: for a work with a valid identifier, a location yielding no source id
(missing or malformed source data) loses only that location: `get_row`
returns exactly the row it would return with that location removed — the
other locations' source ids still feed the match flag — and a flattened row
is still produced, with no exception. -/
theorem get_row_skips_bad_location (w : Work) (m : Finset Int) (wid : Int)
    (pre post : List Location) (loc : Location)
    (hid : parseWorkId w.id = .ok wid)
    (hbad : collectSourceId loc = none)
    (hne : pre ++ post ≠ []) :
    getRow { w with locations := some (pre ++ loc :: post) } m
      = getRow { w with locations := some (pre ++ post) } m ∧
    ∃ r : Row, getRow { w with locations := some (pre ++ loc :: post) } m = .ok (some r) := by
  have hids : collectSourceIds (pre ++ loc :: post) = collectSourceIds (pre ++ post) := by
    unfold collectSourceIds
    rw [List.filterMap_append, List.filterMap_append, List.filterMap_cons, hbad]
  have hmatch : computeInMatchSet (some (pre ++ loc :: post)) m
      = computeInMatchSet (some (pre ++ post)) m := by
    have h1 : pre ++ loc :: post ≠ [] := by
      intro h
      rcases List.append_eq_nil.mp h with ⟨-, h2⟩
      cases h2
    show (if pre ++ loc :: post = [] then none
        else some (decide (((collectSourceIds (pre ++ loc :: post)).toFinset ∩ m).Nonempty)))
      = (if pre ++ post = [] then none
        else some (decide (((collectSourceIds (pre ++ post)).toFinset ∩ m).Nonempty)))
    rw [if_neg h1, if_neg hne, hids]
  have key : ∀ lo : Option (List Location),
      getRow { w with locations := lo } m = .ok (some
        { work_id := wid
          in_match_set := computeInMatchSet lo m
          publication_year := w.publication_year
          language := w.language
          publisher := getPublisher w
          type := w.type
          type_crossref := w.type_crossref
          countries := getCountries w
          referenced_works_count := w.referenced_works_count
          authors_count := w.authors_count
          cited_by_count := w.cited_by_count
          institutions_distinct_count := w.institutions_distinct_count
          is_oa := w.open_access.bind OpenAccess.is_oa
          oa_status := w.open_access.bind OpenAccess.oa_status
          is_retracted := w.is_retracted
          source_type := getSourceType w
          has_doi := w.doi.isSome }) := by
    intro lo
    exact getRow_ok_of_parse _ m wid hid
  refine ⟨?_, ⟨_, key (some (pre ++ loc :: post))⟩⟩
  rw [key (some (pre ++ loc :: post)), key (some (pre ++ post)), hmatch]

/-- A location whose source id parses. -/
def c5goodLoc : Location := { source := some { id := some ("https://openalex.org/s9".data) } }

/-- A location whose source id lacks the source namespace string. -/
def c5badLoc : Location := { source := some { id := some ("bogus".data) } }

/-- The work the C5 witness builds locations onto. -/
def c5base : Work := { id := some ("https://openalex.org/w3".data) }

/-- Witness for C5: one malformed location among one good one is dropped and
a row is still produced. -/
theorem get_row_skips_bad_location_witness :
    (getRow { c5base with locations := some ([c5goodLoc] ++ c5badLoc :: []) } ∅
      = getRow { c5base with locations := some ([c5goodLoc] ++ []) } ∅) ∧
    ∃ r : Row,
      getRow { c5base with locations := some ([c5goodLoc] ++ c5badLoc :: []) } ∅
        = .ok (some r) :=
  get_row_skips_bad_location c5base ∅ 3 [c5goodLoc] [] c5badLoc (by decide) (by decide)
    (by decide)

/-! ## C6 -/

/-- The probe returns an index that is free, lies at or after the start, and
is no later than any other free index at or after the start. -/
theorem findFree_spec (files : Finset Nat) (idx : Nat) :
    findFree files idx ∉ files ∧ idx ≤ findFree files idx ∧
      ∀ j, idx ≤ j → j ∉ files → findFree files idx ≤ j := by
  refine findFree.induct files
    (fun i => findFree files i ∉ files ∧ i ≤ findFree files i ∧
      ∀ j, i ≤ j → j ∉ files → findFree files i ≤ j) ?_ ?_ idx
  · intro i hmem ih
    rw [findFree, if_pos hmem]
    refine ⟨ih.1, le_trans (Nat.le_succ i) ih.2.1, ?_⟩
    intro j hj hjf
    have hj1 : i + 1 ≤ j := by
      rcases Nat.eq_or_lt_of_le hj with rfl | h
      · exact absurd hmem hjf
      · omega
    exact ih.2.2 j hj1 hjf
  · intro i hmem
    rw [findFree, if_neg hmem]
    exact ⟨hmem, le_refl i, fun j hj _ => hj⟩

/-- Invariant of the batch-writing loop: every index written is fresh
relative to the starting directory, no index is written twice, and the
directory only grows. -/
theorem writeLoop_spec (n : Nat) : ∀ (files : Finset Nat) (fileIdx : Nat),
    (∀ i ∈ (writeLoop files fileIdx n).2, i ∉ files) ∧
      files ⊆ (writeLoop files fileIdx n).1 ∧
      (writeLoop files fileIdx n).2.Nodup := by
  induction n with
  | zero =>
    intro files fileIdx
    exact ⟨by simp [writeLoop], by simp [writeLoop], by simp [writeLoop]⟩
  | succ k ih =>
    intro files fileIdx
    obtain ⟨ih1, ih2, ih3⟩ := ih (insert (findFree files fileIdx) files) (findFree files fileIdx)
    have hfree := findFree_spec files fileIdx
    have heq : writeLoop files fileIdx (k + 1)
        = ((writeLoop (insert (findFree files fileIdx) files) (findFree files fileIdx) k).1,
           findFree files fileIdx
             :: (writeLoop (insert (findFree files fileIdx) files) (findFree files fileIdx) k).2) :=
      rfl
    rw [heq]
    refine ⟨?_, ?_, ?_⟩
    · intro i hi
      rcases List.mem_cons.mp hi with rfl | hi2
      · exact hfree.1
      · exact fun hif => ih1 i hi2 (Finset.mem_insert_of_mem hif)
    · exact fun x hx => ih2 (Finset.mem_insert_of_mem hx)
    · refine List.nodup_cons.mpr ⟨?_, ih3⟩
      intro hmem
      exact ih1 _ hmem (Finset.mem_insert_self _ _)

/-- C6: the chunked writer never overwrites an existing output file.  Over a
run of `n` batches against any pre-existing directory, every index written
to was absent before the run, no index is written twice, every pre-existing
index is still present at the end, and the first batch of a run goes to the
next free index: it is free and every smaller index is occupied. -/
theorem chunked_writer_never_overwrites (files : Finset Nat) (n : Nat) :
    (∀ i ∈ (writeLoop files 0 n).2, i ∉ files) ∧
      (writeLoop files 0 n).2.Nodup ∧
      files ⊆ (writeLoop files 0 n).1 ∧
      (∀ i, (writeLoop files 0 n).2.head? = some i → i ∉ files ∧ ∀ j, j < i → j ∈ files) := by
  obtain ⟨h1, h2, h3⟩ := writeLoop_spec n files 0
  refine ⟨h1, h3, h2, ?_⟩
  intro i hi
  cases n with
  | zero => exact absurd hi (by simp [writeLoop])
  | succ k =>
    have hhd : (writeLoop files 0 (k + 1)).2.head? = some (findFree files 0) := rfl
    rw [hhd] at hi
    obtain rfl := (Option.some.inj hi).symm
    have hfree := findFree_spec files 0
    refine ⟨hfree.1, fun j hj => ?_⟩
    by_contra hjf
    exact absurd (hfree.2.2 j (Nat.zero_le j) hjf) (by omega)

/-- Witness for C6: with `works_0000.parquet` pre-existing (index set `{0}`),
a one-batch run writes its first batch to index 1, the next free index. -/
theorem chunked_writer_never_overwrites_witness :
    (writeLoop ({0} : Finset Nat) 0 1).2.head? = some 1 ∧
      (1 ∉ ({0} : Finset Nat)) ∧ ∀ j, j < 1 → j ∈ ({0} : Finset Nat) := by
  have hf : findFree ({0} : Finset Nat) 0 = 1 := by
    rw [findFree, if_pos (by decide), findFree, if_neg (by decide)]
  have hhead : (writeLoop ({0} : Finset Nat) 0 1).2.head? = some 1 := by
    show some (findFree ({0} : Finset Nat) 0) = some 1
    rw [hf]
  exact ⟨hhead, (chunked_writer_never_overwrites {0} 1).2.2.2 1 hhead⟩

/-! ## C4 -/

/-- Two characters of different digit-ness differ. -/
theorem digit_ne_of_not_digit (c d : Char) (hc : c.isDigit = true) (hd : d.isDigit = false) :
    c ≠ d := by
  intro h
  rw [h] at hc
  rw [hc] at hd
  cases hd

/-- Decimal digits are not stripped as whitespace. -/
theorem digit_not_space (c : Char) (hc : c.isDigit = true) : isPySpace c = false := by
  by_contra h
  have h2 : isPySpace c = true := by
    revert h
    cases isPySpace c <;> simp
  simp only [isPySpace, Bool.or_eq_true, beq_iff_eq] at h2
  rcases h2 with ((((rfl | rfl) | rfl) | rfl) | rfl) | rfl <;> exact absurd hc (by decide)

/-- `dropWhile` keeps a list none of whose members satisfies the predicate. -/
theorem dropWhile_eq_self_of_forall (p : Char → Bool) (l : Str) (h : ∀ c ∈ l, p c = false) :
    l.dropWhile p = l := by
  cases l with
  | nil => rfl
  | cons c t =>
    rw [List.dropWhile_cons, h c (List.mem_cons_self c t)]
    simp

/-- `strip()` keeps a string free of whitespace. -/
theorem pyStrip_eq_self_of_forall (l : Str) (h : ∀ c ∈ l, isPySpace c = false) :
    pyStrip l = l := by
  unfold pyStrip
  rw [dropWhile_eq_self_of_forall isPySpace l h,
    dropWhile_eq_self_of_forall isPySpace l.reverse
      (fun c hc => h c (List.mem_reverse.mp hc)),
    List.reverse_reverse]

/-- `int()` on a non-empty all-digit string yields the digits' value. -/
theorem pyInt_digits (ds : Str) (h1 : ds ≠ []) (h2 : ∀ c ∈ ds, c.isDigit = true) :
    pyInt ds = some ((digitsVal ds : Nat) : Int) := by
  have hstrip : pyStrip ds = ds :=
    pyStrip_eq_self_of_forall ds (fun c hc => digit_not_space c (h2 c hc))
  obtain ⟨c, t, rfl⟩ : ∃ c t, ds = c :: t := by
    cases ds with
    | nil => exact absurd rfl h1
    | cons c t => exact ⟨c, t, rfl⟩
  have hc := h2 c (List.mem_cons_self c t)
  have hplus : ¬((c :: t).head? = some '+') := by
    rw [List.head?_cons]
    intro h
    exact digit_ne_of_not_digit c '+' hc (by decide) (Option.some.inj h)
  have hminus : ¬((c :: t).head? = some '-') := by
    rw [List.head?_cons]
    intro h
    exact digit_ne_of_not_digit c '-' hc (by decide) (Option.some.inj h)
  have hsign : pyIntSign (c :: t) = (1, c :: t) := by
    unfold pyIntSign
    rw [if_neg hplus, if_neg hminus]
  unfold pyInt
  rw [hstrip, hsign]
  rw [if_pos ⟨List.cons_ne_nil c t, List.all_eq_true.mpr h2⟩]
  rw [one_mul]

/-- A list is a `isPrefixOf` itself extended on the right. -/
theorem isPrefixOf_append_self (l r : Str) : l.isPrefixOf (l ++ r) = true := by
  induction l with
  | nil => cases r <;> rfl
  | cons a as ih =>
    show (a == a && as.isPrefixOf (as ++ r)) = true
    rw [ih, beq_self_eq_true]
    rfl

/-- Substring containment holds at the leftmost position. -/
theorem containsSub_append_self (l r : Str) : containsSub l (l ++ r) = true := by
  cases l with
  | nil =>
    cases r with
    | nil => rfl
    | cons c t => rfl
  | cons a as =>
    show ((a :: as).isPrefixOf ((a :: as) ++ r) || containsSub (a :: as) (as ++ r)) = true
    rw [isPrefixOf_append_self]
    rfl

/-- A positive skip counter discards exactly that many characters. -/
theorem replaceDropGo_skip (needle t rest : Str) :
    replaceDropGo needle t.length (t ++ rest) = replaceDropGo needle 0 rest := by
  induction t with
  | nil => rfl
  | cons c ts ih => exact ih

/-- Scanning a string that never shows the needle's first character changes
nothing. -/
theorem replaceDropGo_no_occ (n : Char) (nt l : Str) (h : ∀ c ∈ l, c ≠ n) :
    replaceDropGo (n :: nt) 0 l = l := by
  induction l with
  | nil => rfl
  | cons c rest ih =>
    have hnp : ¬((n :: nt) ≠ [] ∧ (n :: nt).isPrefixOf (c :: rest) = true) := by
      rintro ⟨-, hp⟩
      have hp2 : (n == c && nt.isPrefixOf rest) = true := hp
      rw [Bool.and_eq_true, beq_iff_eq] at hp2
      exact h c (List.mem_cons_self c rest) hp2.1.symm
    show (if (n :: nt) ≠ [] ∧ (n :: nt).isPrefixOf (c :: rest) = true then
        replaceDropGo (n :: nt) ((n :: nt).length - 1) rest
      else c :: replaceDropGo (n :: nt) 0 rest) = c :: rest
    rw [if_neg hnp, ih (fun x hx => h x (List.mem_cons_of_mem c hx))]

/-- `replace(needle, "")` on the needle followed by text free of the
needle's first character yields exactly that text. -/
theorem replaceDrop_of_prefix (n : Char) (nt ds : Str) (h : ∀ c ∈ ds, c ≠ n) :
    replaceDrop (n :: nt) ((n :: nt) ++ ds) = ds := by
  have hp : (n :: nt).isPrefixOf ((n :: nt) ++ ds) = true := isPrefixOf_append_self _ _
  unfold replaceDrop
  show (if (n :: nt) ≠ [] ∧ (n :: nt).isPrefixOf (n :: (nt ++ ds)) = true then
      replaceDropGo (n :: nt) ((n :: nt).length - 1) (nt ++ ds)
    else n :: replaceDropGo (n :: nt) 0 (nt ++ ds)) = ds
  rw [if_pos ⟨List.cons_ne_nil n nt, hp⟩]
  show replaceDropGo (n :: nt) nt.length (nt ++ ds) = ds
  rw [replaceDropGo_skip]
  exact replaceDropGo_no_occ n nt ds h

/-- Any case variant of the work namespace followed by digits parses to the
digits' value. -/
theorem parseWorkId_valid (s ds : Str) (h1 : ds ≠ []) (h2 : ∀ c ∈ ds, c.isDigit = true)
    (hs : pyLower s = workPrefixChars ++ ds) :
    parseWorkId (some s) = .ok ((digitsVal ds : Nat) : Int) := by
  have hsne : s ≠ [] := by
    intro h
    rw [h] at hs
    exact absurd hs.symm (by simp [pyLower, workPrefixChars])
  have hw : workPrefixChars = 'h' :: ("ttps://openalex.org/w".data) := by decide
  have hno : ∀ c ∈ ds, c ≠ 'h' := fun c hc =>
    digit_ne_of_not_digit c 'h' (h2 c hc) (by decide)
  have hrep : replaceDrop workPrefixChars (pyLower s) = ds := by
    rw [hs, hw]
    exact replaceDrop_of_prefix 'h' _ ds hno
  have hcont : containsSub workPrefixChars (pyLower s) = true := by
    rw [hs]
    exact containsSub_append_self _ _
  show (if s = [] then Except.error PyErr.attributeError
    else if containsSub workPrefixChars (pyLower s) = false then Except.error PyErr.attributeError
    else match pyInt (replaceDrop workPrefixChars (pyLower s)) with
      | some n => Except.ok n
      | none => Except.error PyErr.attributeError) = Except.ok ((digitsVal ds : Nat) : Int)
  rw [if_neg hsne, hcont]
  rw [if_neg (by simp : ¬(true = false)), hrep, pyInt_digits ds h1 h2]

/-- C4: identifier parsing is case-insensitive — for every valid
vendor-prefixed identifier (the work namespace followed by digits, in any
mixture of upper and lower case) and every case variant of it, both parse
to the same non-negative integer value of the digits. -/
theorem parse_work_id_case_insensitive (s t ds : Str)
    (h1 : ds ≠ []) (h2 : ∀ c ∈ ds, c.isDigit = true)
    (hs : pyLower s = workPrefixChars ++ ds)
    (ht : pyLower t = pyLower s) :
    parseWorkId (some t) = parseWorkId (some s) ∧
      parseWorkId (some s) = .ok ((digitsVal ds : Nat) : Int) ∧
      (0 : Int) ≤ ((digitsVal ds : Nat) : Int) := by
  have hvs := parseWorkId_valid s ds h1 h2 hs
  have hvt := parseWorkId_valid t ds h1 h2 (ht.trans hs)
  exact ⟨hvt.trans hvs.symm, hvs, Int.natCast_nonneg _⟩

/-- Witness for C4 at two case variants of the same identifier. -/
theorem parse_work_id_case_insensitive_witness :
    parseWorkId (some ("HTTPS://OPENALEX.ORG/w123".data))
        = parseWorkId (some ("https://openalex.org/W123".data)) ∧
      parseWorkId (some ("https://openalex.org/W123".data)) = .ok ((123 : Int)) ∧
      (0 : Int) ≤ (123 : Int) := by
  have h := parse_work_id_case_insensitive ("https://openalex.org/W123".data)
    ("HTTPS://OPENALEX.ORG/w123".data) ("123".data)
    (by decide) (by decide) (by decide) (by decide)
  have hval : ((digitsVal ("123".data) : Nat) : Int) = (123 : Int) := by decide
  exact ⟨h.1, hval ▸ h.2.1, by decide⟩

/-! ## C8 -/

/-- Non-newline whitespace, as may surround an identifier on its line. -/
def isLineSpace (c : Char) : Bool := isPySpace c && c != '\n'

/-- A well-formed line of the matched-source-id file: the letter `S` and
decimal digits, surrounded by optional (non-newline) whitespace. -/
def goodIdLine (l ds : Str) : Prop :=
  ∃ a b, l = a ++ 'S' :: ds ++ b ∧ (∀ c ∈ a, isLineSpace c = true) ∧
    (∀ c ∈ b, isLineSpace c = true) ∧ ds ≠ [] ∧ ∀ c ∈ ds, c.isDigit = true

/-- `dropWhile` runs through a block of characters all satisfying the
predicate. -/
theorem dropWhile_append_of_forall (p : Char → Bool) (a l : Str)
    (h : ∀ c ∈ a, p c = true) :
    (a ++ l).dropWhile p = l.dropWhile p := by
  induction a with
  | nil => rfl
  | cons c t ih =>
    rw [List.cons_append, List.dropWhile_cons, h c (List.mem_cons_self c t)]
    simp only [if_true]
    exact ih (fun x hx => h x (List.mem_cons_of_mem c hx))

/-- `strip()` removes exactly the whitespace surrounding a whitespace-free
core. -/
theorem pyStrip_sandwich (a m b : Str)
    (ha : ∀ c ∈ a, isPySpace c = true) (hb : ∀ c ∈ b, isPySpace c = true)
    (hm : m ≠ []) (hms : ∀ c ∈ m, isPySpace c = false) :
    pyStrip (a ++ m ++ b) = m := by
  obtain ⟨c, t, rfl⟩ : ∃ c t, m = c :: t := by
    cases m with
    | nil => exact absurd rfl hm
    | cons c t => exact ⟨c, t, rfl⟩
  unfold pyStrip
  have h1 : (a ++ (c :: t) ++ b).dropWhile isPySpace = (c :: t) ++ b := by
    rw [List.append_assoc, dropWhile_append_of_forall isPySpace a _ ha,
      List.cons_append, List.dropWhile_cons, hms c (List.mem_cons_self c t)]
    simp
  rw [h1, List.reverse_append,
    dropWhile_append_of_forall isPySpace b.reverse _
      (fun x hx => hb x (List.mem_reverse.mp hx)),
    dropWhile_eq_self_of_forall isPySpace (c :: t).reverse
      (fun x hx => hms x (List.mem_reverse.mp hx)),
    List.reverse_reverse]

/-- `replace("S", "")` on `S` followed by digits yields the digits. -/
theorem removeS_digits (ds : Str) (h : ∀ c ∈ ds, c.isDigit = true) :
    removeS ('S' :: ds) = ds := by
  unfold removeS
  rw [List.filter_cons]
  have hS : (decide (('S' : Char) ≠ 'S')) = false := by decide
  rw [hS]
  simp only [Bool.false_eq_true, if_false]
  exact List.filter_eq_self.mpr (fun c hc => by
    simp only [decide_eq_true_eq]
    exact digit_ne_of_not_digit c 'S' (h c hc) (by decide))

/-- One well-formed line parses to the value of its digits. -/
theorem goodIdLine_parses (l ds : Str) (h : goodIdLine l ds) :
    pyInt (removeS (pyStrip l)) = some ((digitsVal ds : Nat) : Int) := by
  obtain ⟨a, b, rfl, ha, hb, hne, hdig⟩ := h
  have hstrip : pyStrip (a ++ 'S' :: ds ++ b) = 'S' :: ds := by
    apply pyStrip_sandwich
    · intro c hc
      have := ha c hc
      rw [isLineSpace, Bool.and_eq_true] at this
      exact this.1
    · intro c hc
      have := hb c hc
      rw [isLineSpace, Bool.and_eq_true] at this
      exact this.1
    · exact List.cons_ne_nil _ _
    · intro c hc
      rcases List.mem_cons.mp hc with rfl | hc2
      · decide
      · exact digit_not_space c (hdig c hc2)
  rw [hstrip, removeS_digits ds hdig, pyInt_digits ds hne hdig]

/-- A well-formed line contains no newline. -/
theorem goodIdLine_no_nl (l ds : Str) (h : goodIdLine l ds) : '\n' ∉ l := by
  obtain ⟨a, b, rfl, ha, hb, -, hdig⟩ := h
  intro hmem
  rcases List.mem_append.mp hmem with h1 | h2
  · rcases List.mem_append.mp h1 with h3 | h4
    · exact absurd (ha _ h3) (by decide)
    · rcases List.mem_cons.mp h4 with h5 | h6
      · exact absurd h5 (by decide)
      · exact absurd (hdig _ h6) (by decide)
  · exact absurd (hb _ h2) (by decide)

/-- Splitting a newline-free string gives that one item back. -/
theorem pySplitNl_no_nl (l : Str) (h : '\n' ∉ l) : pySplitNl l = [l] := by
  induction l with
  | nil => rfl
  | cons c t ih =>
    have hc : c ≠ '\n' := fun hh => h (hh ▸ List.mem_cons_self c t)
    show (if c = '\n' then [] :: pySplitNl t
      else match pySplitNl t with
        | [] => [[c]]
        | g :: gs => (c :: g) :: gs) = [c :: t]
    rw [if_neg hc, ih (fun hh => h (List.mem_cons_of_mem c hh))]

/-- Splitting peels a newline-free block off the front. -/
theorem pySplitNl_append (a r : Str) (h : '\n' ∉ a) :
    pySplitNl (a ++ '\n' :: r) = a :: pySplitNl r := by
  induction a with
  | nil =>
    show (if '\n' = '\n' then [] :: pySplitNl r
      else match pySplitNl r with
        | [] => [['\n']]
        | g :: gs => ('\n' :: g) :: gs) = [] :: pySplitNl r
    rw [if_pos rfl]
  | cons c t ih =>
    have hc : c ≠ '\n' := fun hh => h (hh ▸ List.mem_cons_self c t)
    show (if c = '\n' then [] :: pySplitNl (t ++ '\n' :: r)
      else match pySplitNl (t ++ '\n' :: r) with
        | [] => [[c]]
        | g :: gs => (c :: g) :: gs) = (c :: t) :: pySplitNl r
    rw [if_neg hc, ih (fun hh => h (List.mem_cons_of_mem c hh))]

/-- Splitting is a left inverse of joining newline-free lines. -/
theorem pySplitNl_joinNl (lines : List Str) (hne : lines ≠ [])
    (h : ∀ l ∈ lines, '\n' ∉ l) :
    pySplitNl (joinNl lines) = lines := by
  induction lines with
  | nil => exact absurd rfl hne
  | cons l ls ih =>
    cases ls with
    | nil => exact pySplitNl_no_nl l (h l (List.mem_cons_self l []))
    | cons l2 ls2 =>
      show pySplitNl (l ++ '\n' :: joinNl (l2 :: ls2)) = l :: (l2 :: ls2)
      rw [pySplitNl_append l _ (h l (List.mem_cons_self _ _)),
        ih (by simp) (fun x hx => h x (List.mem_cons_of_mem l hx))]

/-- Every line parses, so the whole traversal succeeds with the values in
order. -/
theorem mapM_goodIdLines (lines dss : List Str)
    (hform : List.Forall₂ goodIdLine lines dss) :
    lines.mapM (fun item => pyInt (removeS (pyStrip item)))
      = some (dss.map (fun ds => ((digitsVal ds : Nat) : Int))) := by
  induction hform with
  | nil => rfl
  | cons h hrest ih =>
    rw [List.mapM_cons, goodIdLine_parses _ _ h, ih]
    rfl

/-- Every line relatable by `Forall₂` to some digit string is well formed. -/
theorem forall₂_goodIdLine_exists (lines dss : List Str)
    (hform : List.Forall₂ goodIdLine lines dss) :
    ∀ l ∈ lines, ∃ d, goodIdLine l d := by
  induction hform with
  | nil => intro l hl; exact absurd hl (List.not_mem_nil l)
  | cons h hrest ih =>
    intro l hl
    rcases List.mem_cons.mp hl with rfl | hl2
    · exact ⟨_, h⟩
    · exact ih l hl2

/-- C8: on a file whose lines each carry a prefixed source id `S<digits>`
surrounded by optional whitespace, `get_source_ids_matched` succeeds and
returns exactly the set of the integers named on the lines.  (The loaded set
is then passed around unchanged: in this embedding it is an immutable value
threaded to `get_row`.) -/
theorem get_source_ids_matched_correct (lines dss : List Str)
    (hform : List.Forall₂ goodIdLine lines dss)
    (hne : lines ≠ []) :
    getSourceIdsMatched (joinNl lines)
      = .ok ((dss.map (fun ds => ((digitsVal ds : Nat) : Int))).toFinset) := by
  have hex := forall₂_goodIdLine_exists lines dss hform
  have hnl : ∀ l ∈ lines, '\n' ∉ l := by
    intro l hl
    obtain ⟨d, hgood⟩ := hex l hl
    exact goodIdLine_no_nl l d hgood
  unfold getSourceIdsMatched
  rw [pySplitNl_joinNl lines hne hnl, mapM_goodIdLines lines dss hform]

/-- Witness for C8 on a two-line file. -/
theorem get_source_ids_matched_correct_witness :
    getSourceIdsMatched (joinNl [("S1".data), (" S23 ".data)])
      = .ok (([("1".data), ("23".data)].map
          (fun ds => ((digitsVal ds : Nat) : Int))).toFinset) := by
  apply get_source_ids_matched_correct
  · refine List.Forall₂.cons ?_ (List.Forall₂.cons ?_ List.Forall₂.nil)
    · exact ⟨[], [], by decide, by decide, by decide, by decide, by decide⟩
    · exact ⟨[' '], [' '], by decide, by decide, by decide, by decide, by decide⟩
  · simp

/-! ## C9 -/

/-- Whether a melted Scopus row carries the given ISSN value. -/
def hasValue (v : Str) (r : IssnRow) : Bool := r.value = v

instance : IsTotal IssnRow (fun a b => b.scopus_id ≤ a.scopus_id) :=
  ⟨fun a b => le_total b.scopus_id a.scopus_id⟩

instance : IsTrans IssnRow (fun a b => b.scopus_id ≤ a.scopus_id) :=
  ⟨fun _ _ _ hab hbc => le_trans hbc hab⟩

/-- `drop_duplicates` keeps exactly the first row carrying each value. -/
theorem dropDupValues_filter (v : Str) (l : List IssnRow) : ∀ seen,
    (dropDupValues seen l).filter (hasValue v)
      = if v ∈ seen then [] else (l.find? (hasValue v)).toList := by
  induction l with
  | nil =>
    intro seen
    by_cases h : v ∈ seen <;> simp [dropDupValues, h]
  | cons r rs ih =>
    intro seen
    show (if r.value ∈ seen then dropDupValues seen rs
      else r :: dropDupValues (r.value :: seen) rs).filter (hasValue v)
      = if v ∈ seen then [] else ((r :: rs).find? (hasValue v)).toList
    by_cases hr : r.value ∈ seen
    · rw [if_pos hr, ih seen]
      by_cases hv : v ∈ seen
      · rw [if_pos hv, if_pos hv]
      · have hrv : ¬(hasValue v r = true) := by
          simp only [hasValue, decide_eq_true_eq]
          intro he
          exact hv (he ▸ hr)
        rw [if_neg hv, if_neg hv, List.find?_cons_of_neg rs hrv]
    · rw [if_neg hr, List.filter_cons]
      by_cases hv2 : hasValue v r = true
      · have hveq : r.value = v := by simpa [hasValue] using hv2
        have hvs : v ∉ seen := fun h => hr (hveq ▸ h)
        have hinner : (dropDupValues (r.value :: seen) rs).filter (hasValue v) = [] := by
          rw [ih (r.value :: seen)]
          have hvin : v ∈ r.value :: seen := by
            rw [hveq]
            exact List.mem_cons_self v seen
          rw [if_pos hvin]
        rw [if_pos hv2, hinner, if_neg hvs, List.find?_cons_of_pos rs hv2]
        rfl
      · have hrvne : r.value ≠ v := by
          intro he
          exact hv2 (by simp [hasValue, he])
        rw [if_neg hv2, ih (r.value :: seen), List.find?_cons_of_neg rs hv2]
        by_cases hv : v ∈ seen
        · rw [if_pos (List.mem_cons_of_mem _ hv), if_pos hv]
        · have hvnot : v ∉ r.value :: seen := by
            intro hmem
            rcases List.mem_cons.mp hmem with he | he
            · exact hrvne he.symm
            · exact hv he
          rw [if_neg hvnot, if_neg hv]

/-- In a list sorted descending by `scopus_id`, the first row found with a
given value has the largest `scopus_id` among all rows with that value. -/
theorem find?_max_of_sorted (v : Str) :
    ∀ l : List IssnRow, l.Sorted (fun a b => b.scopus_id ≤ a.scopus_id) →
      ∀ r₀, l.find? (hasValue v) = some r₀ →
      ∀ r ∈ l, hasValue v r = true → r.scopus_id ≤ r₀.scopus_id := by
  intro l
  induction l with
  | nil =>
    intro _ r₀ hf
    exact absurd hf (by simp)
  | cons h t ih =>
    intro hs r₀ hf r hr hrv
    by_cases hh : hasValue v h = true
    · rw [List.find?_cons_of_pos t hh] at hf
      obtain rfl := Option.some.inj hf
      rcases List.mem_cons.mp hr with rfl | hr2
      · exact le_refl _
      · exact (List.sorted_cons.mp hs).1 r hr2
    · rw [List.find?_cons_of_neg t hh] at hf
      rcases List.mem_cons.mp hr with rfl | hr2
      · exact absurd hrv hh
      · exact ih (List.sorted_cons.mp hs).2 r₀ hf r hr2 hrv

/-- C9: after the ISSN deduplication step (sort descending by `scopus_id`,
then drop duplicate ISSN values keeping the first), exactly one row carries
each ISSN value present in the input, that row is an input row, and its
`scopus_id` is at least that of every input row with the same ISSN — so of
two rows sharing one ISSN with different `scopus_id`, the higher one is
kept. -/
theorem issn_dedup_keeps_highest (rows : List IssnRow) (v : Str)
    (hv : ∃ r ∈ rows, r.value = v) :
    ((dedupIssns rows).filter (hasValue v)).length = 1 ∧
      ∀ r ∈ dedupIssns rows, r.value = v →
        r ∈ rows ∧ ∀ r2 ∈ rows, r2.value = v → r2.scopus_id ≤ r.scopus_id := by
  have hperm : List.Perm (sortByScopusIdDesc rows) rows := by
    unfold sortByScopusIdDesc
    exact List.perm_insertionSort _ rows
  have hsorted : (sortByScopusIdDesc rows).Sorted (fun a b => b.scopus_id ≤ a.scopus_id) := by
    unfold sortByScopusIdDesc
    exact List.sorted_insertionSort _ rows
  obtain ⟨rv, hrv_mem, hrv_val⟩ := hv
  have hfind : ∃ r₀, (sortByScopusIdDesc rows).find? (hasValue v) = some r₀ := by
    cases hf : (sortByScopusIdDesc rows).find? (hasValue v) with
    | some r₀ => exact ⟨r₀, rfl⟩
    | none =>
      have hnone := List.find?_eq_none.mp hf rv (hperm.mem_iff.mpr hrv_mem)
      exact absurd (by simp [hasValue, hrv_val]) hnone
  obtain ⟨r₀, hf⟩ := hfind
  have hfilter : (dedupIssns rows).filter (hasValue v) = [r₀] := by
    unfold dedupIssns
    rw [dropDupValues_filter v (sortByScopusIdDesc rows) [],
      if_neg (List.not_mem_nil v), hf]
    rfl
  constructor
  · rw [hfilter]
    rfl
  · intro r hr hrval
    have hrfil : r ∈ (dedupIssns rows).filter (hasValue v) := by
      rw [List.mem_filter]
      exact ⟨hr, by simp [hasValue, hrval]⟩
    rw [hfilter] at hrfil
    obtain rfl : r = r₀ := by simpa using hrfil
    refine ⟨hperm.mem_iff.mp (List.mem_of_find?_eq_some hf), ?_⟩
    intro r2 hr2 hr2v
    exact find?_max_of_sorted v (sortByScopusIdDesc rows) hsorted r hf r2
      (hperm.mem_iff.mpr hr2) (by simp [hasValue, hr2v])

/-- Witness for C9: of two rows sharing one ISSN with `scopus_id` 1 and 2,
deduplication keeps exactly one row and it dominates both. -/
theorem issn_dedup_keeps_highest_witness :
    ((dedupIssns [⟨1, ("1234-5678".data)⟩, ⟨2, ("1234-5678".data)⟩]).filter
        (hasValue ("1234-5678".data))).length = 1 ∧
      ∀ r ∈ dedupIssns [⟨1, ("1234-5678".data)⟩, ⟨2, ("1234-5678".data)⟩],
        r.value = ("1234-5678".data) →
          r ∈ [(⟨1, ("1234-5678".data)⟩ : IssnRow), ⟨2, ("1234-5678".data)⟩] ∧
          ∀ r2 ∈ [(⟨1, ("1234-5678".data)⟩ : IssnRow), ⟨2, ("1234-5678".data)⟩],
            r2.value = ("1234-5678".data) → r2.scopus_id ≤ r.scopus_id :=
  issn_dedup_keeps_highest [⟨1, ("1234-5678".data)⟩, ⟨2, ("1234-5678".data)⟩]
    ("1234-5678".data) ⟨⟨1, ("1234-5678".data)⟩, List.mem_cons_self _ _, rfl⟩
